import Mathlib

/-!
Verification of the RuGet download engine against its natural-language
specification.  Each Rust function relevant to the claims is shallowly
embedded as an executable Lean definition, translated directly from the
source (`src/multithreaded_download.rs`, `src/download.rs`, `src/retry.rs`,
`src/http.rs`).  Machine integers (`u64`, `usize`, `u32`) are modelled as
`Nat`; the arithmetic involved never overflows in the claimed ranges.
`f64` arithmetic in the backoff policy is modelled by exact rationals.
Filesystem and network effects are modelled by explicit state
(chunk stores as functions, response schedules as lists).
-/

/-! ## Chunk planner (src/multithreaded_download.rs, lines 227-244) -/

/-- Structure `DownloadChunk` from `src/multithreaded_download.rs`. -/
structure DownloadChunk where
  start_byte : Nat
  end_byte : Nat
  chunk_id : Nat
deriving Repr, DecidableEq

/-- One planned chunk, given the integer chunk size `b`:
`start_byte = i * b`; `end_byte = (start_byte + b) - 1`, except the last
chunk (`i = jobs - 1`) whose `end_byte = content_length - 1`. -/
def mkChunk (b L n i : Nat) : DownloadChunk :=
  { start_byte := i * b
    end_byte := if i = n - 1 then L - 1 else i * b + b - 1
    chunk_id := i }

/-- The chunk plan computed inside `multithreaded_download_url`:
`chunk_size = content_length / jobs` (integer division), chunks for
`i in 0..jobs`. -/
def planChunks (content_length : Nat) (jobs : Nat) : List DownloadChunk :=
  (List.range jobs).map (mkChunk (content_length / jobs) content_length jobs)

/-- A byte offset `x` falls inside a chunk's inclusive range. -/
def inChunk (c : DownloadChunk) (x : Nat) : Prop :=
  c.start_byte ≤ x ∧ x ≤ c.end_byte

instance (c : DownloadChunk) (x : Nat) : Decidable (inChunk c x) := by
  unfold inChunk; infer_instance

lemma planChunks_mem_iff {L n : Nat} {c : DownloadChunk} :
    c ∈ planChunks L n ↔ ∃ i < n, c = mkChunk (L / n) L n i := by
  simp only [planChunks, List.mem_map, List.mem_range]
  constructor
  · rintro ⟨i, hi, rfl⟩; exact ⟨i, hi, rfl⟩
  · rintro ⟨i, hi, rfl⟩; exact ⟨i, hi, rfl⟩

lemma mkChunk_cover {b L n : Nat} (hb : 1 ≤ b) (hnb : n * b ≤ L) (hn : 2 ≤ n)
    {x : Nat} (hx : x ≤ L - 1) : ∃ i < n, inChunk (mkChunk b L n i) x := by
  by_cases hlast : (n - 1) * b ≤ x
  · refine ⟨n - 1, by omega, ?_⟩
    rw [inChunk, mkChunk]; simp only [if_pos rfl]
    exact ⟨hlast, hx⟩
  · push_neg at hlast
    have hq : x / b < n - 1 := (Nat.div_lt_iff_lt_mul (by omega)).mpr hlast
    refine ⟨x / b, by omega, ?_⟩
    rw [inChunk, mkChunk]
    simp only [if_neg (show ¬ x / b = n - 1 by omega)]
    have h1 : x / b * b ≤ x := Nat.div_mul_le_self x b
    have h2 : x < x / b * b + b := by
      have hd := Nat.div_add_mod x b
      have hm := Nat.mod_lt x (show 0 < b by omega)
      have hc : b * (x / b) = x / b * b := Nat.mul_comm _ _
      omega
    exact ⟨h1, by omega⟩

lemma mkChunk_contained {b L n : Nat} (hb : 1 ≤ b) (hnb : n * b ≤ L) (hn : 2 ≤ n)
    {i : Nat} (hi : i < n) :
    (mkChunk b L n i).end_byte ≤ L - 1 ∧
    (mkChunk b L n i).start_byte ≤ (mkChunk b L n i).end_byte := by
  have hstep : (n - 1) * b + b = n * b := by
    have h : (n - 1) * b + b = (n - 1 + 1) * b := (Nat.succ_mul _ _).symm
    rw [h]; congr 1; omega
  dsimp only [mkChunk]
  by_cases hil : i = n - 1
  · subst hil
    rw [if_pos rfl]
    exact ⟨Nat.le_refl _, by omega⟩
  · rw [if_neg hil]
    have h1 : (i + 1) * b ≤ (n - 1) * b := Nat.mul_le_mul_right b (by omega)
    have hs : (i + 1) * b = i * b + b := Nat.succ_mul _ _
    constructor <;> omega

lemma mkChunk_end_lt_start {b L n : Nat} (hb : 1 ≤ b) {i j : Nat}
    (hij : i < j) (hjn : j < n) :
    (mkChunk b L n i).end_byte < (mkChunk b L n j).start_byte := by
  rw [mkChunk, mkChunk]
  simp only [if_neg (show ¬ i = n - 1 by omega)]
  have h1 : (i + 1) * b ≤ j * b := Nat.mul_le_mul_right b (by omega)
  have hs : (i + 1) * b = i * b + b := Nat.succ_mul _ _
  omega

/-- Claim C1: for `content_length ≥ 1` and `worker_count ∈ [2, content_length]`,
the plan has exactly `worker_count` chunks, every byte of `[0, content_length-1]`
is covered by some chunk, every chunk lies inside `[0, content_length-1]`,
and no byte belongs to two distinct chunks. -/
theorem planChunks_tiles (L n : Nat) (hL : 1 ≤ L) (hn : 2 ≤ n) (hnL : n ≤ L) :
    (planChunks L n).length = n ∧
    (∀ x, x ≤ L - 1 → ∃ c ∈ planChunks L n, inChunk c x) ∧
    (∀ c ∈ planChunks L n, c.end_byte ≤ L - 1 ∧ c.start_byte ≤ c.end_byte) ∧
    (∀ c₁ ∈ planChunks L n, ∀ c₂ ∈ planChunks L n, ∀ x,
       inChunk c₁ x → inChunk c₂ x → c₁ = c₂) := by
  have hb : 1 ≤ L / n := (Nat.le_div_iff_mul_le (by omega)).mpr (by omega)
  have hnb : n * (L / n) ≤ L := Nat.mul_div_le L n
  refine ⟨by simp [planChunks], ?_, ?_, ?_⟩
  · intro x hx
    obtain ⟨i, hi, hcov⟩ := mkChunk_cover hb hnb hn hx
    exact ⟨_, planChunks_mem_iff.mpr ⟨i, hi, rfl⟩, hcov⟩
  · intro c hc
    obtain ⟨i, hi, rfl⟩ := planChunks_mem_iff.mp hc
    exact mkChunk_contained hb hnb hn hi
  · intro c₁ hc₁ c₂ hc₂ x hx₁ hx₂
    obtain ⟨i, hi, rfl⟩ := planChunks_mem_iff.mp hc₁
    obtain ⟨j, hj, rfl⟩ := planChunks_mem_iff.mp hc₂
    rcases Nat.lt_trichotomy i j with h | h | h
    · have := mkChunk_end_lt_start hb h hj (b := L / n) (L := L)
      rw [inChunk] at hx₁ hx₂
      omega
    · subst h; rfl
    · have := mkChunk_end_lt_start hb h hi (b := L / n) (L := L)
      rw [inChunk] at hx₁ hx₂
      omega

/-- Witness for C1 at `content_length = 1003`, `worker_count = 4`. -/
theorem planChunks_tiles_witness :
    1 ≤ 1003 ∧ 2 ≤ 4 ∧ 4 ≤ 1003 ∧
    ((planChunks 1003 4).length = 4 ∧
     (∀ x, x ≤ 1003 - 1 → ∃ c ∈ planChunks 1003 4, inChunk c x) ∧
     (∀ c ∈ planChunks 1003 4, c.end_byte ≤ 1003 - 1 ∧ c.start_byte ≤ c.end_byte) ∧
     (∀ c₁ ∈ planChunks 1003 4, ∀ c₂ ∈ planChunks 1003 4, ∀ x,
        inChunk c₁ x → inChunk c₂ x → c₁ = c₂)) :=
  ⟨by decide, by decide, by decide,
   planChunks_tiles 1003 4 (by decide) (by decide) (by decide)⟩

/-! ## Chunk combiner (src/multithreaded_download.rs, lines 148-180)

The per-chunk temporary files are modelled as a store mapping chunk id to
`Option (List Nat)` (the file's bytes, or `none` when the file does not
exist); the final output file is the accumulated byte list.  `combine_chunks`
iterates `chunk_id in 0..num_chunks`, fails with the missing id if a chunk
file does not exist, otherwise appends its bytes to the output and removes
the file, exactly as the source does. -/

/-- Effect of `std::fs::remove_file` on chunk `id` of the store. -/
def removeChunk (fs : Nat → Option (List Nat)) (id : Nat) : Nat → Option (List Nat) :=
  fun j => if j = id then none else fs j

/-- The `for chunk_id in 0..num_chunks` loop body of `combine_chunks`:
on a missing chunk file the loop aborts, returning the missing id together
with the store at that point; otherwise the chunk's bytes are copied onto
the end of the output and the temporary file is removed. -/
def combineLoop (fs : Nat → Option (List Nat)) (acc : List Nat) :
    List Nat → Except (Nat × (Nat → Option (List Nat))) (List Nat × (Nat → Option (List Nat)))
  | [] => .ok (acc, fs)
  | id :: rest =>
    match fs id with
    | none => .error (id, fs)
    | some bytes => combineLoop (removeChunk fs id) (acc ++ bytes) rest

/-- Function `combine_chunks`: the output file starts empty (`File::create`
truncates), then the loop runs over chunk ids `0..num_chunks` ascending. -/
def combine_chunks (fs : Nat → Option (List Nat)) (num_chunks : Nat) :
    Except (Nat × (Nat → Option (List Nat))) (List Nat × (Nat → Option (List Nat))) :=
  combineLoop fs [] (List.range num_chunks)

/-- Byte-wise concatenation of the chunk contents for ids `s, s+1, ..., s+k-1`. -/
def concatChunks (data : Nat → List Nat) (s k : Nat) : List Nat :=
  ((List.range' s k).map data).flatten

/-- The store with ids `s, ..., s+k-1` removed. -/
def wipeRange (fs : Nat → Option (List Nat)) (s k : Nat) : Nat → Option (List Nat) :=
  fun i => if s ≤ i ∧ i < s + k then none else fs i

lemma wipeRange_zero (fs : Nat → Option (List Nat)) (s : Nat) :
    wipeRange fs s 0 = fs := by
  funext i; rw [wipeRange, if_neg (by omega)]

lemma wipeRange_cons (fs : Nat → Option (List Nat)) (s k : Nat) :
    wipeRange (removeChunk fs s) (s + 1) k = wipeRange fs s (k + 1) := by
  funext i
  simp only [wipeRange, removeChunk]
  by_cases h1 : s + 1 ≤ i ∧ i < s + 1 + k
  · rw [if_pos h1, if_pos (by omega)]
  · rw [if_neg h1]
    by_cases h2 : i = s
    · rw [if_pos h2, if_pos (by omega)]
    · rw [if_neg h2, if_neg (by omega)]

lemma combineLoop_ok (data : Nat → List Nat) :
    ∀ k s fs acc, (∀ i, s ≤ i → i < s + k → fs i = some (data i)) →
      combineLoop fs acc (List.range' s k) =
        .ok (acc ++ concatChunks data s k, wipeRange fs s k)
  | 0, s, fs, acc, _ => by
      simp [combineLoop, concatChunks, wipeRange_zero]
  | k + 1, s, fs, acc, h => by
      rw [List.range'_succ]
      have hs : fs s = some (data s) := h s (Nat.le_refl s) (by omega)
      simp only [combineLoop, hs]
      have hrec := combineLoop_ok data k (s + 1) (removeChunk fs s)
        (acc ++ data s) (by
          intro i hi1 hi2
          rw [removeChunk, if_neg (by omega)]
          exact h i (by omega) (by omega))
      rw [hrec, wipeRange_cons]
      have hcat : acc ++ data s ++ concatChunks data (s + 1) k =
          acc ++ concatChunks data s (k + 1) := by
        rw [concatChunks, concatChunks, List.range'_succ, List.map_cons,
          List.flatten_cons, ← List.append_assoc]
      rw [hcat]

lemma combineLoop_err :
    ∀ k s fs acc j, s ≤ j → j < s + k → fs j = none →
      (∀ i, s ≤ i → i < j → fs i ≠ none) →
      combineLoop fs acc (List.range' s k) = .error (j, wipeRange fs s (j - s))
  | 0, s, fs, acc, j, hj1, hj2, _, _ => by omega
  | k + 1, s, fs, acc, j, hj1, hj2, hnone, hbefore => by
      rw [List.range'_succ]
      by_cases hjs : j = s
      · subst hjs
        simp only [combineLoop, hnone]
        rw [Nat.sub_self, wipeRange_zero]
      · have hs : fs s ≠ none := hbefore s (Nat.le_refl s) (by omega)
        obtain ⟨bytes, hbytes⟩ : ∃ b, fs s = some b := by
          cases hfs : fs s with
          | none => exact absurd hfs hs
          | some b => exact ⟨b, rfl⟩
        simp only [combineLoop, hbytes]
        have hrec := combineLoop_err k (s + 1) (removeChunk fs s)
          (acc ++ bytes) j (by omega) (by omega)
          (by rw [removeChunk, if_neg (by omega)]; exact hnone)
          (by
            intro i hi1 hi2
            rw [removeChunk, if_neg (by omega)]
            exact hbefore i (by omega) hi2)
        rw [hrec]
        have harg : j - (s + 1) + 1 = j - s := by omega
        have : wipeRange (removeChunk fs s) (s + 1) (j - (s + 1)) =
            wipeRange fs s (j - s) := by
          rw [wipeRange_cons, harg]
        rw [this]

/-- Claim C2: `combine_chunks` visits chunk ids `0..n` in ascending order;
when every temporary chunk file exists, it succeeds, the output file is the
byte-wise concatenation of the chunk files in chunk-id order, and every
temporary chunk file below `n` is removed (the rest of the store is
untouched); when some chunk file is missing, it fails at the least missing
id `j`, and every chunk file from `j` on is left unprocessed (still present
in the returned store). -/
theorem combine_chunks_spec (n : Nat) (fs : Nat → Option (List Nat))
    (data : Nat → List Nat) :
    ((∀ i, i < n → fs i = some (data i)) →
       combine_chunks fs n = .ok (concatChunks data 0 n, wipeRange fs 0 n)) ∧
    (∀ j, j < n → fs j = none → (∀ i, i < j → fs i ≠ none) →
       combine_chunks fs n = .error (j, wipeRange fs 0 j)) := by
  constructor
  · intro h
    rw [combine_chunks, List.range_eq_range']
    have := combineLoop_ok data n 0 fs [] (by intro i _ hi2; exact h i (by omega))
    rw [this, List.nil_append]
  · intro j hj hnone hbefore
    rw [combine_chunks, List.range_eq_range']
    have := combineLoop_err n 0 fs [] j (Nat.zero_le j) (by omega) hnone
      (fun i _ hi2 => hbefore i hi2)
    rw [this, Nat.sub_zero]

set_option maxRecDepth 40000 in
/-- Witness for C2: the spec's 1003-byte example, 4 chunks of sizes
250, 250, 250, 253. -/
theorem combine_chunks_spec_witness :
    ((∀ i, i < 4 →
        (fun i => if i < 3 then some (List.replicate 250 i) else
                  if i = 3 then some (List.replicate 253 i) else none) i =
        some ((fun i => if i < 3 then List.replicate 250 i else
                  List.replicate 253 i) i)) →
      combine_chunks (fun i => if i < 3 then some (List.replicate 250 i) else
                  if i = 3 then some (List.replicate 253 i) else none) 4 =
        .ok (concatChunks (fun i => if i < 3 then List.replicate 250 i else
                  List.replicate 253 i) 0 4,
             wipeRange (fun i => if i < 3 then some (List.replicate 250 i) else
                  if i = 3 then some (List.replicate 253 i) else none) 0 4)) ∧
    (∀ i, i < 4 →
        (fun i => if i < 3 then some (List.replicate 250 i) else
                  if i = 3 then some (List.replicate 253 i) else none) i =
        some ((fun i => if i < 3 then List.replicate 250 i else
                  List.replicate 253 i) i)) ∧
    (concatChunks (fun i => if i < 3 then List.replicate 250 i else
                  List.replicate 253 i) 0 4).length = 1003 :=
  ⟨(combine_chunks_spec 4 _ _).1, by decide, by decide⟩

/-! ## Range fetcher retry loops

Two fetch loops exist in the repository.  `single_threaded_download`
(src/multithreaded_download.rs, lines 340-407) and `download_chunk`
(lines 61-144) share one structure: a counter `attempt` starting at 0;
a received response whose status is neither "success" (2xx) nor 206 is
treated like a transport error — `attempt += 1`, permanent failure once
`attempt > max_retries`, otherwise sleep `next_delay(attempt - 1)` and
retry.  `download_url` (src/download.rs, lines 114-157) instead returns an
error immediately on such a status, and on transport errors decrements a
`retries` counter (permanent failure when it reaches 0) with a fixed
2-second sleep.

The network is modelled by a schedule: the list of outcomes the successive
GET requests would observe.  A loop run is summarised by a `FetchTrace`
(final success flag, number of GETs issued, backoff delays slept, in
order).  `none` is returned only when the schedule is shorter than the
number of attempts the loop makes; every theorem below supplies enough
outcomes. -/

/-- Outcome of one GET request: a transport-level failure, or a received
response with the given status code. -/
inductive AttemptOutcome
  | transportErr
  | response (status : Nat)
deriving Repr, DecidableEq

/-- Summary of a fetch-loop run: whether it ended in success, how many GET
requests were issued, and the backoff delays slept (in ms, in order). -/
structure FetchTrace where
  ok : Bool
  gets : Nat
  delays : List Nat
deriving Repr, DecidableEq

/-- The source's acceptance test `!(!status.is_success() && status.as_u16() != 206)`:
a status is accepted when `is_success()` (2xx) holds or it is 206. -/
def statusAccepted (s : Nat) : Bool :=
  decide (200 ≤ s ∧ s < 300) || decide (s = 206)

/-- The retry loop of `single_threaded_download` and `download_chunk`:
`attempt` is the current counter; a rejected status and a transport error
take the identical path (increment, exhaustion test `attempt > max_retries`,
sleep `next_delay(attempt - 1)` on the post-increment value). -/
def stLoop (max_retries : Nat) (next_delay : Nat → Nat) (attempt : Nat) :
    List AttemptOutcome → Option FetchTrace
  | [] => none
  | .response s :: rest =>
    if statusAccepted s then some ⟨true, 1, []⟩
    else if attempt + 1 > max_retries then some ⟨false, 1, []⟩
    else (stLoop max_retries next_delay (attempt + 1) rest).map
      fun r => ⟨r.ok, r.gets + 1, next_delay attempt :: r.delays⟩
  | .transportErr :: rest =>
    if attempt + 1 > max_retries then some ⟨false, 1, []⟩
    else (stLoop max_retries next_delay (attempt + 1) rest).map
      fun r => ⟨r.ok, r.gets + 1, next_delay attempt :: r.delays⟩

/-- The retry loop of `download_url` in `src/download.rs`: a response with a
rejected status returns an error at once; a transport error decrements
`retries`, failing permanently when the counter reaches 0, else sleeping a
fixed 2 seconds. -/
def downloadUrlLoop (retries : Nat) : List AttemptOutcome → Option FetchTrace
  | [] => none
  | .response s :: _ =>
    if statusAccepted s then some ⟨true, 1, []⟩
    else some ⟨false, 1, []⟩
  | .transportErr :: rest =>
    if retries - 1 = 0 then some ⟨false, 1, []⟩
    else (downloadUrlLoop (retries - 1) rest).map
      fun r => ⟨r.ok, r.gets + 1, 2000 :: r.delays⟩

/-- An outcome on which the `stLoop` fetch attempt does not succeed. -/
def failingOutcome : AttemptOutcome → Bool
  | .transportErr => true
  | .response s => !statusAccepted s

/-- The failure-log lines written by `download` in `src/download.rs`
(lines 290-292): one `url<TAB>error` line per permanently failed URL. -/
def failureLog (final_failures : List (String × String)) : List String :=
  final_failures.map fun p => p.1 ++ "\t" ++ p.2

/-- Claim C3 (amended): in the `single_threaded_download` / `download_chunk`
retry loop, a received response with a rejected status (any non-2xx,
non-206 status) is treated identically to a transport failure: the whole
remaining run — success flag, GET count, every backoff delay and the
exhaustion rule — is the same as if that attempt had been a transport
error.  (The claim's "any status other than 200 or 206" acceptance set and
its inclusion of `download_url` are refuted by `C3_counterexample`.) -/
theorem status_retry_like_transport (max_retries : Nat) (next_delay : Nat → Nat)
    (attempt s : Nat) (rest : List AttemptOutcome)
    (h : statusAccepted s = false) :
    stLoop max_retries next_delay attempt (.response s :: rest) =
    stLoop max_retries next_delay attempt (.transportErr :: rest) := by
  rw [stLoop, stLoop, h]
  simp only [Bool.false_eq_true, if_false]

/-- Witness for C3 (amended) at status 500, `max_retries = 2`. -/
theorem status_retry_like_transport_witness :
    statusAccepted 500 = false ∧
    stLoop 2 (fun a => 100 * 2 ^ a) 0 [.response 500, .response 200] =
    stLoop 2 (fun a => 100 * 2 ^ a) 0 [.transportErr, .response 200] :=
  ⟨by decide,
   status_retry_like_transport 2 (fun a => 100 * 2 ^ a) 0 500 [.response 200]
     (by decide)⟩

/-- Counterexample to claim C3 as stated: in `download_url`
(src/download.rs, lines 119-123) a received HTTP 500 is a permanent failure
after a single GET (no retry, no backoff), while a transport failure at the
same point is retried and can succeed — the two are not treated
identically; moreover a 204 response (a status other than 200 or 206) is
accepted as success by both loops, not retried. -/
theorem C3_counterexample :
    downloadUrlLoop 3 [.response 500, .response 200] = some ⟨false, 1, []⟩ ∧
    downloadUrlLoop 3 [.transportErr, .response 200] = some ⟨true, 2, [2000]⟩ ∧
    stLoop 3 (fun a => 100 * 2 ^ a) 0 [.response 204] = some ⟨true, 1, []⟩ := by
  refine ⟨by decide, by decide, by decide⟩

lemma stLoop_all_fail (R : Nat) (next_delay : Nat → Nat) :
    ∀ (outcomes : List AttemptOutcome) (attempt : Nat), attempt ≤ R →
      outcomes.length = R + 1 - attempt →
      (∀ o ∈ outcomes, failingOutcome o = true) →
      stLoop R next_delay attempt outcomes =
        some ⟨false, R + 1 - attempt, (List.range' attempt (R - attempt)).map next_delay⟩
  | [], attempt, hle, hlen, _ => by
    simp only [List.length_nil] at hlen
    exact absurd hle (by omega)
  | o :: rest, attempt, hle, hlen, hfail => by
    have hrange : R - attempt = (R - (attempt + 1)) + 1 ∨ R - attempt = 0 := by omega
    have hstep : ∀ tr : Option FetchTrace,
        tr = stLoop R next_delay (attempt + 1) rest →
        (if attempt + 1 > R then some (⟨false, 1, []⟩ : FetchTrace)
         else tr.map fun r => ⟨r.ok, r.gets + 1, next_delay attempt :: r.delays⟩) =
        some ⟨false, R + 1 - attempt, (List.range' attempt (R - attempt)).map next_delay⟩ := by
      intro tr htr
      by_cases hex : attempt + 1 > R
      · rw [if_pos hex]
        have h1 : R + 1 - attempt = 1 := by omega
        have h0 : R - attempt = 0 := by omega
        rw [h1, h0]
        rfl
      · rw [if_neg hex]
        have hrec := stLoop_all_fail R next_delay rest (attempt + 1) (by omega)
          (by simp at hlen; omega)
          (fun o ho => hfail o (List.mem_cons_of_mem _ ho))
        rw [htr, hrec, Option.map_some']
        have h1 : R + 1 - (attempt + 1) + 1 = R + 1 - attempt := by omega
        have h2 : List.range' attempt (R - attempt) =
            attempt :: List.range' (attempt + 1) (R - (attempt + 1)) := by
          rcases hrange with h | h
          · rw [h, List.range'_succ]
          · omega
        rw [h1, h2, List.map_cons]
    cases o with
    | transportErr =>
      rw [stLoop]
      exact hstep _ rfl
    | response s =>
      have hs : statusAccepted s = false := by
        have := hfail _ (List.mem_cons_self _ _)
        rw [failingOutcome] at this
        simpa using this
      rw [stLoop, hs]
      simp only [Bool.false_eq_true, if_false]
      exact hstep _ rfl

/-- Claim C4 (amended): in the `single_threaded_download` / `download_chunk`
retry loop with `max_retries = R`, a URL for which every GET attempt fails
(e.g. always HTTP 500) sees exactly `R + 1` GET attempts — one initial plus
`R` retries, with backoff delays for attempts `0, ..., R-1` — before the
loop returns a permanent failure; the failure log then contains exactly one
line for that URL.  (For `download_url` in `src/download.rs` the claim
fails: see `C4_counterexample`.) -/
theorem fetch_loop_attempt_count (R : Nat) (next_delay : Nat → Nat)
    (outcomes : List AttemptOutcome)
    (hlen : outcomes.length = R + 1)
    (hfail : ∀ o ∈ outcomes, failingOutcome o = true) :
    stLoop R next_delay 0 outcomes =
      some ⟨false, R + 1, (List.range R).map next_delay⟩ ∧
    ∀ url err : String, (failureLog [(url, err)]).length = 1 := by
  constructor
  · have := stLoop_all_fail R next_delay outcomes 0 (Nat.zero_le R)
      (by omega) hfail
    rw [this, List.range_eq_range']
    rfl
  · intro url err
    rfl

/-- Witness for C4 (amended): `max_retries = 2`, every GET returns
HTTP 500: exactly 3 GET attempts. -/
theorem fetch_loop_attempt_count_witness :
    ([.response 500, .response 500, .response 500] :
        List AttemptOutcome).length = 2 + 1 ∧
    (∀ o ∈ ([.response 500, .response 500, .response 500] :
        List AttemptOutcome), failingOutcome o = true) ∧
    (stLoop 2 (fun a => 100 * 2 ^ a) 0
        [.response 500, .response 500, .response 500] =
      some ⟨false, 2 + 1, (List.range 2).map (fun a => 100 * 2 ^ a)⟩ ∧
     ∀ url err : String, (failureLog [(url, err)]).length = 1) :=
  ⟨by decide, by decide,
   fetch_loop_attempt_count 2 (fun a => 100 * 2 ^ a)
     [.response 500, .response 500, .response 500] (by decide) (by decide)⟩

/-- Counterexample to claim C4 as stated: in `download_url`
(src/download.rs, lines 114-157), with the retry budget set to 2 a URL
whose every GET attempt returns HTTP 500 sees exactly 1 GET attempt (not
3): the status error aborts immediately; and even a URL whose every
attempt is a transport error sees exactly 2 GET attempts (the counter
counts total attempts, not retries). -/
theorem C4_counterexample :
    downloadUrlLoop 2 [.response 500, .response 500, .response 500] =
      some ⟨false, 1, []⟩ ∧
    downloadUrlLoop 2 [.transportErr, .transportErr, .transportErr] =
      some ⟨false, 2, [2000]⟩ ∧
    (1 : Nat) ≠ 2 + 1 := by
  refine ⟨by decide, by decide, by decide⟩

/-! ## Backoff policy (src/retry.rs, lines 7-55)

The policy's `f64` arithmetic is modelled by exact rationals; durations are
their values in milliseconds (the code converts `base_delay`/`max_delay`
with `as_millis` before computing).  The random jitter factor drawn from
`gen_range(0.75..=1.25)` is a parameter `jitter_factor` of the model; the
final `Duration::from_millis(final_delay as u64)` cast truncates towards
zero, i.e. takes the floor of a non-negative value. -/

/-- Structure `BackoffPolicy` from `src/retry.rs`. -/
structure BackoffPolicy where
  base_delay_ms : ℕ
  factor : ℚ
  max_delay_ms : ℕ
  jitter : Bool

/-- The uncapped delay `base_millis * factor.powi(attempt)`. -/
def rawDelay (p : BackoffPolicy) (attempt : ℕ) : ℚ :=
  (p.base_delay_ms : ℚ) * p.factor ^ attempt

/-- The delay after `calculated_delay.min(max_delay.as_millis() as f64)`. -/
def cappedDelay (p : BackoffPolicy) (attempt : ℕ) : ℚ :=
  min (rawDelay p attempt) (p.max_delay_ms : ℚ)

/-- Method `next_delay`: applies the jitter multiplier when enabled, then
truncates to integer milliseconds. -/
def next_delay (p : BackoffPolicy) (attempt : ℕ) (jitter_factor : ℚ) : ℕ :=
  let final_delay := if p.jitter then cappedDelay p attempt * jitter_factor
                     else cappedDelay p attempt
  ⌊final_delay⌋₊

/-- The properties claim C5 asserts of `next_delay`, with the jitter bound
corrected for the truncation to whole milliseconds: with jitter disabled
the result is the (truncated) capped exponential and is non-decreasing in
`attempt`; the pre-jitter value never exceeds `max_delay`; with jitter
enabled the result exceeds `0.75 * capped - 1` (truncation can lose up to
one millisecond below `0.75 * capped`) and is at most `1.25 * capped`. -/
def NextDelayProps (p : BackoffPolicy) (attempt : ℕ) (j : ℚ) : Prop :=
  (p.jitter = false →
     next_delay p attempt j =
       ⌊min ((p.base_delay_ms : ℚ) * p.factor ^ attempt) ((p.max_delay_ms : ℚ))⌋₊ ∧
     next_delay p attempt j ≤ next_delay p (attempt + 1) j) ∧
  cappedDelay p attempt ≤ (p.max_delay_ms : ℚ) ∧
  (p.jitter = true → 3/4 ≤ j → j ≤ 5/4 →
     3/4 * cappedDelay p attempt - 1 < (next_delay p attempt j : ℚ) ∧
     (next_delay p attempt j : ℚ) ≤ 5/4 * cappedDelay p attempt)

lemma rawDelay_nonneg (p : BackoffPolicy) (attempt : ℕ) (hf : 1 ≤ p.factor) :
    0 ≤ rawDelay p attempt := by
  rw [rawDelay]
  have h0 : (0 : ℚ) ≤ p.factor := le_trans zero_le_one hf
  exact mul_nonneg (by positivity) (pow_nonneg h0 attempt)

lemma cappedDelay_nonneg (p : BackoffPolicy) (attempt : ℕ) (hf : 1 ≤ p.factor) :
    0 ≤ cappedDelay p attempt :=
  le_min (rawDelay_nonneg p attempt hf) (by positivity)

lemma cappedDelay_mono (p : BackoffPolicy) (attempt : ℕ) (hf : 1 ≤ p.factor) :
    cappedDelay p attempt ≤ cappedDelay p (attempt + 1) := by
  refine min_le_min ?_ le_rfl
  rw [rawDelay, rawDelay]
  exact mul_le_mul_of_nonneg_left
    (pow_le_pow_right hf (Nat.le_succ attempt)) (by positivity)

/-- Claim C5 (amended): for every `attempt ≥ 0` and a policy whose factor
is at least 1 (the caller invariant; the source always passes 2.0), the
properties in `NextDelayProps` hold.  The original jitter bound
`0.75 * capped ≤ result` fails because of the millisecond truncation: see
`C5_counterexample`. -/
theorem next_delay_spec (p : BackoffPolicy) (attempt : ℕ) (j : ℚ)
    (hf : 1 ≤ p.factor) : NextDelayProps p attempt j := by
  have hcap0 : 0 ≤ cappedDelay p attempt := cappedDelay_nonneg p attempt hf
  refine ⟨?_, min_le_right _ _, ?_⟩
  · intro hj
    constructor
    · rw [next_delay]
      simp only [hj, Bool.false_eq_true, if_false]
      rfl
    · rw [next_delay, next_delay]
      simp only [hj, Bool.false_eq_true, if_false]
      exact Nat.floor_le_floor (cappedDelay_mono p attempt hf)
  · intro hj hj34 hj54
    have hj0 : (0 : ℚ) ≤ j := le_trans (by norm_num) hj34
    have hval : next_delay p attempt j = ⌊cappedDelay p attempt * j⌋₊ := by
      rw [next_delay]
      simp only [hj, if_true]
    constructor
    · have hlow : 3/4 * cappedDelay p attempt ≤ cappedDelay p attempt * j := by
        rw [mul_comm (3/4 : ℚ)]
        exact mul_le_mul_of_nonneg_left hj34 hcap0
      have hfl : cappedDelay p attempt * j - 1 < (⌊cappedDelay p attempt * j⌋₊ : ℚ) :=
        Nat.sub_one_lt_floor _
      rw [hval]
      linarith
    · have hup : cappedDelay p attempt * j ≤ 5/4 * cappedDelay p attempt := by
        rw [mul_comm (5/4 : ℚ)]
        exact mul_le_mul_of_nonneg_left hj54 hcap0
      have hfl : (⌊cappedDelay p attempt * j⌋₊ : ℚ) ≤ cappedDelay p attempt * j :=
        Nat.floor_le (mul_nonneg hcap0 hj0)
      rw [hval]
      linarith

/-- Witness for C5 (amended) at `base = 100 ms`, `factor = 2`,
`max = 60000 ms`, jitter disabled, `attempt = 1`. -/
theorem next_delay_spec_witness :
    (1 : ℚ) ≤ (BackoffPolicy.mk 100 2 60000 false).factor ∧
    NextDelayProps (BackoffPolicy.mk 100 2 60000 false) 1 1 :=
  ⟨by norm_num, next_delay_spec (BackoffPolicy.mk 100 2 60000 false) 1 1 (by norm_num)⟩

/-- Counterexample to claim C5 as stated: with `base = 10 ms`, `factor = 2`,
`max = 60000 ms`, jitter enabled, `attempt = 0` and the admissible jitter
draw `0.76`, the capped delay is 10 ms and the returned delay is
`floor(10 * 0.76) = 7 ms`, which is below `0.75 * capped = 7.5 ms`: the
result does not lie in `[0.75 * capped, 1.25 * capped]`. -/
theorem C5_counterexample :
    (3/4 : ℚ) ≤ 19/25 ∧ (19/25 : ℚ) ≤ 5/4 ∧
    cappedDelay (BackoffPolicy.mk 10 2 60000 true) 0 = 10 ∧
    next_delay (BackoffPolicy.mk 10 2 60000 true) 0 (19/25) = 7 ∧
    ¬ (3/4 * cappedDelay (BackoffPolicy.mk 10 2 60000 true) 0 ≤
        (next_delay (BackoffPolicy.mk 10 2 60000 true) 0 (19/25) : ℚ)) := by
  have hfl : ⌊(38/5 : ℚ)⌋₊ = 7 := by
    rw [Nat.floor_eq_iff (by norm_num)]
    norm_num
  refine ⟨by norm_num, by norm_num, ?_, ?_, ?_⟩
  · rw [cappedDelay, rawDelay]
    norm_num
  · rw [next_delay]
    simp only [if_true]
    rw [cappedDelay, rawDelay]
    norm_num
    exact hfl
  · rw [cappedDelay, rawDelay, next_delay]
    simp only [if_true]
    rw [cappedDelay, rawDelay]
    norm_num
    rw [hfl]
    norm_num

/-! ## Resume decision (src/multithreaded_download.rs, lines 289-322 and
src/download.rs, lines 86-112)

When `--resume` is set and the output file exists, `single_threaded_download`
issues a HEAD request and computes the remote length from the automatic
`content_length()` value and a manual `content-length` header parse; an
undeterminable length yields `unwrap_or(0)`.  The function then returns
success ("already fully downloaded") when `downloaded >= remote_len`,
otherwise sets `Range: bytes=<downloaded>-` and opens the file in append
mode.  `download_url` in `src/download.rs` does the same with
`content_length().unwrap_or(0)` alone. -/

/-- What the single-stream path decides to do before fetching. -/
inductive ResumeAction
  | alreadyComplete
  | resumeFrom (offset : Nat)
  | freshDownload
deriving Repr, DecidableEq

/-- The `remote_len` computation of `single_threaded_download` (lines
299-310): prefer the manually parsed header when `content_length()` is
`Some(0)`, otherwise `auto_len.or(manual_len).unwrap_or(0)`. -/
def remoteLen (auto_len manual_len : Option Nat) : Nat :=
  if auto_len = some 0 ∧ manual_len.isSome then manual_len.getD 0
  else (auto_len.or manual_len).getD 0

/-- The resume decision of `single_threaded_download`: `downloaded` is the
existing file's size from `fs::metadata`. -/
def resumeDecision (resume file_exists : Bool) (downloaded : Nat)
    (auto_len manual_len : Option Nat) : ResumeAction :=
  if resume ∧ file_exists then
    if remoteLen auto_len manual_len ≤ downloaded then .alreadyComplete
    else .resumeFrom downloaded
  else .freshDownload

/-- The resume decision of `download_url` in `src/download.rs`, whose
`remote_len` is `content_length().unwrap_or(0)`. -/
def dlResumeDecision (resume file_exists : Bool) (downloaded : Nat)
    (content_length : Option Nat) : ResumeAction :=
  if resume ∧ file_exists then
    if content_length.getD 0 ≤ downloaded then .alreadyComplete
    else .resumeFrom downloaded
  else .freshDownload

/-- Counterexample to claim C6 as stated: resuming with an existing
5-byte local file when the HEAD response carries no content length (both
the automatic and the manually parsed value are absent) yields
`alreadyComplete` — the local file is treated as complete and nothing is
fetched — not the claimed fresh re-fetch.  The same holds for
`download_url` in `src/download.rs`. -/
theorem C6_counterexample :
    resumeDecision true true 5 none none = .alreadyComplete ∧
    dlResumeDecision true true 5 none = .alreadyComplete ∧
    ResumeAction.alreadyComplete ≠ .freshDownload := by
  refine ⟨by decide, by decide, by decide⟩

/-- Claim C6 (amended): in every resumed single-stream download where the
remote length cannot be determined from the HEAD probe (no usable
content-length, so `remote_len` falls back to 0), the existing local file
is treated as already complete whatever its size: the function returns
success immediately, sets no resume Range header, and performs no fetch at
all — rather than re-fetching from scratch. -/
theorem resume_unknown_length_complete (downloaded : Nat)
    (auto_len manual_len : Option Nat)
    (hauto : auto_len = none) (hmanual : manual_len = none) :
    resumeDecision true true downloaded auto_len manual_len = .alreadyComplete ∧
    dlResumeDecision true true downloaded auto_len = .alreadyComplete := by
  subst hauto hmanual
  constructor
  · rw [resumeDecision, if_pos ⟨rfl, rfl⟩, remoteLen]
    simp
  · rw [dlResumeDecision, if_pos ⟨rfl, rfl⟩]
    simp

/-- Witness for C6 (amended) at `downloaded = 5`. -/
theorem resume_unknown_length_complete_witness :
    (none : Option Nat) = none ∧
    (resumeDecision true true 5 none none = .alreadyComplete ∧
     dlResumeDecision true true 5 none = .alreadyComplete) :=
  ⟨rfl, resume_unknown_length_complete 5 none none rfl rfl⟩

/-! ## Strategy selection (src/multithreaded_download.rs, lines 192-214)

The orchestrator `multithreaded_download_url` first sends a HEAD request
(`?` propagates its failure), then requires `content_length()` (an
`ok_or_else` error when absent), then falls back to
`single_threaded_download` when the server does not advertise
`accept-ranges: bytes` (with `jobs > 1`), or when the length is under
1 MiB, or `jobs <= 1`; otherwise it takes the chunked multi-stream path. -/

/-- Outcome of the per-URL strategy decision. -/
inductive Strategy
  | fail (msg : String)
  | singleStream
  | multiStream
deriving Repr, DecidableEq

/-- The decision procedure of `multithreaded_download_url` up to chunk
planning: `head_ok` is whether the HEAD request succeeded,
`content_length` its `content_length()` value, `accept_ranges` the
`accept-ranges` header value (empty when absent). -/
def chooseStrategy (head_ok : Bool) (content_length : Option Nat)
    (accept_ranges : String) (jobs : Nat) : Strategy :=
  if !head_ok then .fail "fetching file info failed"
  else match content_length with
    | none => .fail "Server did not provide content length"
    | some len =>
      if accept_ranges ≠ "bytes" ∧ jobs > 1 then .singleStream
      else if len < 1024 * 1024 ∨ jobs ≤ 1 then .singleStream
      else .multiStream

/-- Counterexample to claim C7 as stated: when the HEAD probe fails, or
when it succeeds but carries no content length, `multithreaded_download_url`
returns an error for the URL instead of taking the single-stream path. -/
theorem C7_counterexample :
    chooseStrategy false none "bytes" 4 = .fail "fetching file info failed" ∧
    chooseStrategy true none "bytes" 4 =
      .fail "Server did not provide content length" ∧
    (∀ msg, Strategy.fail msg ≠ .singleStream) := by
  refine ⟨by decide, by decide, fun msg => by simp⟩

/-- Claim C7 (amended): when the HEAD probe succeeds and reports a content
length, the orchestrator takes the single-stream path — without failing the
URL — whenever the server does not advertise `accept-ranges: bytes`, or the
requested worker count is ≤ 1, or the content length is below 1 MiB; but a
failed HEAD probe or an unknown content length fails the URL outright
instead of falling back to single-stream. -/
theorem chooseStrategy_spec (len jobs : Nat) (ar : String)
    (content_length : Option Nat) :
    (ar ≠ "bytes" → chooseStrategy true (some len) ar jobs = .singleStream) ∧
    (jobs ≤ 1 → chooseStrategy true (some len) ar jobs = .singleStream) ∧
    (len < 1024 * 1024 → chooseStrategy true (some len) ar jobs = .singleStream) ∧
    chooseStrategy false content_length ar jobs =
      .fail "fetching file info failed" ∧
    chooseStrategy true none ar jobs =
      .fail "Server did not provide content length" := by
  refine ⟨?_, ?_, ?_, rfl, rfl⟩
  · intro har
    rw [chooseStrategy]
    by_cases hjobs : jobs > 1
    · simp only [Bool.not_true, Bool.false_eq_true, if_false]
      rw [if_pos ⟨har, hjobs⟩]
    · simp only [Bool.not_true, Bool.false_eq_true, if_false]
      rw [if_neg (by tauto), if_pos (by omega)]
  · intro hjobs
    rw [chooseStrategy]
    simp only [Bool.not_true, Bool.false_eq_true, if_false]
    by_cases har : ar ≠ "bytes" ∧ jobs > 1
    · rw [if_pos har]
    · rw [if_neg har, if_pos (by omega)]
  · intro hlen
    rw [chooseStrategy]
    simp only [Bool.not_true, Bool.false_eq_true, if_false]
    by_cases har : ar ≠ "bytes" ∧ jobs > 1
    · rw [if_pos har]
    · rw [if_neg har, if_pos (by omega)]

/-- Witness for C7 (amended): a 100-byte resource, 1 worker, no range
support advertised. -/
theorem chooseStrategy_spec_witness :
    (("" : String) ≠ "bytes" →
       chooseStrategy true (some 100) "" 1 = .singleStream) ∧
    ((1 : Nat) ≤ 1 → chooseStrategy true (some 100) "" 1 = .singleStream) ∧
    (100 < 1024 * 1024 → chooseStrategy true (some 100) "" 1 = .singleStream) ∧
    chooseStrategy false (some 100) "" 1 = .fail "fetching file info failed" ∧
    chooseStrategy true none "" 1 = .fail "Server did not provide content length" :=
  chooseStrategy_spec 100 1 "" (some 100)

/-! ## Request headers and netrc credentials (src/http.rs, lines 16-72;
src/multithreaded_download.rs, lines 42-43)

Header maps are modelled as association lists of (lower-cased name, value);
`reqwest::HeaderMap::insert` replaces the value of an existing name.
`download_chunk` and `single_threaded_download` first call `build_headers`
on the user-supplied `-H` arguments, then `add_netrc_auth`, which — when
the parsed URL has a host, a netrc file parses, and that file holds a
machine entry for the host with non-empty login and password — inserts
`Authorization: Basic base64(login:password)`.  URL and netrc parsing are
external collaborators, modelled by their results (the host string and the
parsed machine list). -/

/-- ASCII lower-casing of one character (header names are normalised to
lowercase by `HeaderName::from_str`). -/
def asciiLower (c : Char) : Char :=
  if 'A' ≤ c ∧ c ≤ 'Z' then Char.ofNat (c.toNat + 32) else c

/-- Lower-case a string (ASCII). -/
def lowerStr (s : String) : String := String.mk (s.toList.map asciiLower)

/-- Whitespace test for `str::trim`. -/
def isWs (c : Char) : Bool := c == ' ' || c == '\t' || c == '\n' || c == '\r'

/-- Model of `str::trim`. -/
def trimStr (s : String) : String :=
  String.mk (((s.toList.dropWhile isWs).reverse.dropWhile isWs).reverse)

/-- Model of `str::split_once(':')`: the text before the first colon and
everything after it, or `none` when there is no colon. -/
def splitOnceColon (s : String) : Option (String × String) :=
  match s.toList.span (fun c => !(c == ':')) with
  | (_, []) => none
  | (before, _ :: after) => some (String.mk before, String.mk after)

/-- Model of `HeaderMap::insert`: replaces the value of an existing header
name, otherwise appends the pair. -/
def insertHeader (headers : List (String × String)) (name value : String) :
    List (String × String) :=
  if headers.any (fun h => h.1 == name) then
    headers.map (fun h => if h.1 == name then (name, value) else h)
  else headers ++ [(name, value)]

/-- Lookup of a header value by name. -/
def getHeader (headers : List (String × String)) (name : String) : Option String :=
  (headers.find? (fun h => h.1 == name)).map Prod.snd

/-- Function `build_headers` (src/http.rs, lines 16-38): each `-H`
argument is split at the first colon; the trimmed name (normalised to
lowercase) and trimmed value are inserted.  Arguments without a colon are
skipped (as are invalid names/values, which the model assumes away). -/
def build_headers (header_args : List String) : List (String × String) :=
  header_args.foldl (fun hs arg =>
    match splitOnceColon arg with
    | none => hs
    | some (k, v) => insertHeader hs (lowerStr (trimStr k)) (trimStr v)) []

/-- One `machine` entry of a parsed netrc file. -/
structure NetrcMachine where
  login : String
  password : Option String
deriving Repr, DecidableEq

/-- The standard base64 alphabet. -/
def b64Char (n : Nat) : Char :=
  "ABCDEFGHIJKLMNOPQRSTUVWXYZabcdefghijklmnopqrstuvwxyz0123456789+/".toList.getD n '='

/-- Standard base64 encoding of a byte list (RFC 4648, with padding),
as performed by `BASE64_STANDARD.encode`. -/
def base64Encode : List Nat → String
  | [] => ""
  | [a] => String.mk [b64Char (a / 4), b64Char (a % 4 * 16), '=', '=']
  | [a, b] => String.mk [b64Char (a / 4), b64Char (a % 4 * 16 + b / 16),
      b64Char (b % 16 * 4), '=']
  | a :: b :: c :: rest => String.mk [b64Char (a / 4),
      b64Char (a % 4 * 16 + b / 16), b64Char (b % 16 * 4 + c / 64),
      b64Char (c % 64)] ++ base64Encode rest

/-- Bytes of a string; for the ASCII strings involved here the UTF-8 bytes
coincide with the code points. -/
def strBytes (s : String) : List Nat := s.toList.map Char.toNat

/-- Function `add_netrc_auth` (src/http.rs, lines 41-72): when the URL has
a host, the netrc file parses, a machine entry matches the host, and both
login and password are non-empty, `headers.insert(AUTHORIZATION, "Basic " +
base64(login:password))` is performed — `insert`, which replaces any
existing `authorization` value. -/
def add_netrc_auth (headers : List (String × String)) (host : Option String)
    (netrc_hosts : Option (List (String × NetrcMachine))) :
    List (String × String) :=
  match host with
  | none => headers
  | some h =>
    match netrc_hosts with
    | none => headers
    | some machines =>
      match machines.find? (fun m => m.1 == h) with
      | none => headers
      | some entry =>
        if entry.2.login ≠ "" then
          match entry.2.password with
          | some p =>
            if p ≠ "" then
              insertHeader headers "authorization"
                ("Basic " ++ base64Encode (strBytes (entry.2.login ++ ":" ++ p)))
            else headers
          | none => headers
        else headers

lemma getHeader_insertHeader (hs : List (String × String)) (name v : String) :
    getHeader (insertHeader hs name v) name = some v := by
  rw [insertHeader]
  by_cases hany : hs.any (fun h => h.1 == name) = true
  · rw [if_pos hany]
    induction hs with
    | nil => simp at hany
    | cons h t ih =>
      cases hb : h.1 == name with
      | true =>
        rw [List.map_cons, if_pos hb, getHeader,
          List.find?_cons_of_pos _ (by simp)]
        rfl
      | false =>
        rw [List.map_cons, if_neg (by simp [hb]), getHeader,
          List.find?_cons_of_neg _ (by simp [hb])]
        exact ih (by simpa [List.any_cons, hb] using hany)
  · rw [if_neg hany]
    induction hs with
    | nil =>
      rw [List.nil_append, getHeader, List.find?_cons_of_pos _ (by simp)]
      rfl
    | cons h t ih =>
      have hb : (h.1 == name) = false := by
        cases hx : h.1 == name
        · rfl
        · exact absurd (by simp [List.any_cons, hx]) hany
      rw [List.cons_append, getHeader, List.find?_cons_of_neg _ (by simp [hb])]
      exact ih (by simpa [List.any_cons, hb] using hany)

/-- Claim C8 (amended): when the credentials store has a usable entry for
the URL's host (non-empty login and password), the credentials-derived
Basic-Auth header is inserted unconditionally and therefore overwrites any
user-supplied `Authorization` header; a user-supplied `Authorization`
header survives only when no such entry exists (no host, no netrc file,
or no matching machine). -/
theorem netrc_auth_precedence (headers : List (String × String))
    (host : String) (machines : List (String × NetrcMachine)) :
    (∀ login p, machines.find? (fun m => m.1 == host) =
        some (host, ⟨login, some p⟩) → login ≠ "" → p ≠ "" →
      getHeader (add_netrc_auth headers (some host) (some machines))
          "authorization" =
        some ("Basic " ++ base64Encode (strBytes (login ++ ":" ++ p)))) ∧
    (machines.find? (fun m => m.1 == host) = none →
      add_netrc_auth headers (some host) (some machines) = headers) := by
  constructor
  · intro login p hfind hlogin hp
    rw [add_netrc_auth, hfind]
    simp only
    rw [if_pos hlogin, if_pos hp]
    exact getHeader_insertHeader headers "authorization" _
  · intro hfind
    rw [add_netrc_auth, hfind]

/-- Witness for C8 (amended): a user `Authorization: Bearer token` header
together with a netrc entry `user`/`pw` for `example.com`. -/
theorem netrc_auth_precedence_witness :
    ([("example.com", NetrcMachine.mk "user" (some "pw"))].find?
        (fun m => m.1 == "example.com") =
      some ("example.com", NetrcMachine.mk "user" (some "pw"))) ∧
    ("user" : String) ≠ "" ∧ ("pw" : String) ≠ "" ∧
    getHeader (add_netrc_auth [("authorization", "Bearer token")]
        (some "example.com")
        (some [("example.com", NetrcMachine.mk "user" (some "pw"))]))
        "authorization" =
      some ("Basic " ++ base64Encode (strBytes ("user" ++ ":" ++ "pw"))) :=
  ⟨by decide, by decide, by decide,
   (netrc_auth_precedence [("authorization", "Bearer token")] "example.com"
       [("example.com", NetrcMachine.mk "user" (some "pw"))]).1
     "user" "pw" (by decide) (by decide) (by decide)⟩

/-- Counterexample to claim C8 as stated: with a user-supplied
`Authorization: Bearer token` header and netrc credentials `user`/`pw` for
the host, the header actually sent is the netrc-derived
`Basic dXNlcjpwdw==`, not the user's — the user-supplied Authorization
header is overwritten, not preserved. -/
theorem C8_counterexample :
    getHeader (add_netrc_auth (build_headers ["Authorization: Bearer token"])
        (some "example.com")
        (some [("example.com", NetrcMachine.mk "user" (some "pw"))]))
        "authorization" = some "Basic dXNlcjpwdw==" ∧
    getHeader (build_headers ["Authorization: Bearer token"]) "authorization" =
      some "Bearer token" ∧
    ("Basic dXNlcjpwdw==" : String) ≠ "Bearer token" := by
  refine ⟨by decide, by decide, by decide⟩

/-! ## Batch orchestration (src/download.rs, lines 163-302)

The function `download` runs an initial pass over all URLs, collects
failures, retries each failed URL once (the second pass), writes one
`url<TAB>error` line per URL still failing to the failure log, prints a
summary — and then returns `Ok(())`.  Per-URL network behaviour is
modelled by two oracles giving the success of a URL's download in the
first and in the second pass; the returned `Result` and the appended log
lines are the observable outcome. -/

/-- Observable outcome of one `download` invocation: the `Result` the
function returns, and the failure-log lines appended. -/
structure BatchOutcome where
  result : Except String Unit
  log_lines : List String

/-- The batch logic of `download`: the multiple-URLs-with-`--output`
configuration error aborts before any network activity; otherwise the
initial pass runs every URL, the second pass retries the failures, the
remaining failures are logged — and the function returns `Ok(())`
regardless of how many URLs failed. -/
def downloadBatch (urls : List String) (output_set : Bool)
    (firstPass secondPass : String → Bool) (errMsg : String → String) :
    BatchOutcome :=
  if 1 < urls.length ∧ output_set then
    { result := .error "Cannot use --output with multiple URLs", log_lines := [] }
  else
    let failures := urls.filter (fun u => !(firstPass u))
    let final_failures := (failures.filter (fun u => !(secondPass u))).map
      (fun u => (u, errMsg u))
    { result := .ok (), log_lines := failureLog final_failures }

/-- Counterexample to claim C9 as stated: a batch of two URLs that both
fail in the initial pass and again in the retry pass still makes
`download` return `Ok(())` — a success result — with the two failures only
recorded in the failure log. -/
theorem C9_counterexample :
    (downloadBatch ["http://a", "http://b"] false (fun _ => false)
        (fun _ => false) (fun _ => "connection refused")).result = .ok () ∧
    (downloadBatch ["http://a", "http://b"] false (fun _ => false)
        (fun _ => false) (fun _ => "connection refused")).log_lines =
      ["http://a\tconnection refused", "http://b\tconnection refused"] := by
  refine ⟨rfl, by decide⟩

/-- Claim C9 (amended): whenever the configuration check passes (not
multiple URLs with a single `--output` path), the batch operation returns
the success result `Ok(())` even when every URL fails both passes; an
all-failed batch is reported only through the failure log, which then has
one line per URL. -/
theorem downloadBatch_all_fail_ok (urls : List String) (output_set : Bool)
    (secondPass : String → Bool) (errMsg : String → String)
    (hconf : ¬(1 < urls.length ∧ output_set = true)) :
    (downloadBatch urls output_set (fun _ => false) (fun _ => false)
        errMsg).result = .ok () ∧
    (downloadBatch urls output_set (fun _ => false) (fun _ => false)
        errMsg).log_lines = urls.map (fun u => u ++ "\t" ++ errMsg u) := by
  rw [downloadBatch, if_neg hconf]
  refine ⟨rfl, ?_⟩
  simp only [Bool.not_false, List.filter_true, failureLog, List.map_map]
  rfl

/-- Witness for C9 (amended): two URLs, no explicit output path, all
attempts failing. -/
theorem downloadBatch_all_fail_ok_witness :
    ¬(1 < (["http://a", "http://b"] : List String).length ∧ false = true) ∧
    ((downloadBatch ["http://a", "http://b"] false (fun _ => false)
        (fun _ => false) (fun _ => "err")).result = .ok () ∧
     (downloadBatch ["http://a", "http://b"] false (fun _ => false)
        (fun _ => false) (fun _ => "err")).log_lines =
       ["http://a", "http://b"].map (fun u => u ++ "\t" ++ "err")) :=
  ⟨by decide,
   downloadBatch_all_fail_ok ["http://a", "http://b"] false
     (fun _ => false) (fun _ => "err") (by decide)⟩

/-! ## Chunk fetch result (src/multithreaded_download.rs, lines 61-144)

Once `download_chunk` receives a response whose status passes the
acceptance test (`is_success()` or 206 — a plain 200 to a ranged request
is accepted), it streams whatever body arrives into the chunk's temporary
file in 64 KiB reads, counting `bytes_written`, and returns `Ok(())` when
the stream ends.  No comparison of `bytes_written` against the requested
range length `end_byte - start_byte + 1` is ever made. -/

/-- The accepted-response phase of `download_chunk`: given the response
status and the streamed body (as the list of non-empty reads), returns the
temporary file's contents and `bytes_written` on acceptance, `none` when
the status is rejected (that attempt retries instead). -/
def chunkFetchStream (status : Nat) (body : List (List Nat)) :
    Option (List Nat × Nat) :=
  if statusAccepted status then
    some (body.flatten, (body.map List.length).sum)
  else none

/-- Claim C10: there is a response stream for which the chunk fetch
succeeds while the number of bytes written differs from the planned chunk
size `end_byte - start_byte + 1`: a 200 response whose body is 3 bytes is
accepted for a 100-byte chunk, `Ok` is returned, and `bytes_written = 3 ≠
100`. -/
theorem chunk_fetch_size_unchecked :
    ∃ (chunk : DownloadChunk) (status : Nat) (body : List (List Nat)),
      statusAccepted status = true ∧ status = 200 ∧
      chunkFetchStream status body = some ([1, 2, 3], 3) ∧
      3 ≠ chunk.end_byte - chunk.start_byte + 1 :=
  ⟨⟨0, 99, 0⟩, 200, [[1, 2, 3]], by decide, rfl, by decide, by decide⟩
